import Mathlib

/-!
Verification of the changelog-generation script (utils/changelog/changelog.py).

The Python source is shallowly embedded below.  Strings are Lean strings
(lists of characters), timestamps are integers (seconds), and the external
collaborators (the GitHub client, the fuzzy-similarity scorer, the
filesystem cache) are modelled as explicit parameters: a fetch becomes a
list of outcomes, the fuzzy scorer becomes a function argument, and the
on-disk cache becomes an optional (snapshot, mtime) pair.
-/

namespace Changelog

/-- Python whitespace class (the characters matched by the regex class
for spaces and by str.strip): space, tab, newline, carriage return,
vertical tab, form feed. -/
def isPySpace (c : Char) : Bool :=
  c = ' ' || c = '\t' || c = '\n' || c = '\r' || c = Char.ofNat 11 || c = Char.ofNat 12

/-- The leading markup-noise class of the header regexes. -/
def isNoiseChar (c : Char) : Bool :=
  c = '#' || c = '>' || c = '*' || c = '_' || c = ' '

/-- The list-marker class stripped from a category value line. -/
def isMarkerChar (c : Char) : Bool :=
  c = '-' || c = '*' || isPySpace c

/-- Lower-case every character (model of str.lower on ASCII input). -/
def lowerChars (l : List Char) : List Char := l.map Char.toLower

/-- Lower-case a string. -/
def pyLower (s : String) : String := ⟨lowerChars s.data⟩

/-- Consume a literal character sequence from the front of a character
list; return the remainder on success. -/
def dropLit : List Char → List Char → Option (List Char)
  | [], cs => some cs
  | _ :: _, [] => none
  | p :: ps, c :: cs => if c = p then dropLit ps cs else none

/-- Skip zero or more Python whitespace characters. -/
def skipSpaces (cs : List Char) : List Char := cs.dropWhile isPySpace

/-- Model of re.match on the changelog-category header regex: after any
leading markup noise, the words change, log, category separated by
optional whitespace, case-insensitively, as a prefix of the line. -/
def matchCatHeader (line : String) : Bool :=
  let cs := (lowerChars line.data).dropWhile isNoiseChar
  match dropLit "change".data cs with
  | none => false
  | some cs1 =>
    match dropLit "log".data (skipSpaces cs1) with
    | none => false
    | some cs2 => (dropLit "category".data (skipSpaces cs2)).isSome

/-- Model of re.match on the entry header regex: after any leading markup
noise, either short description or change log entry, case-insensitively,
as a prefix of the line. -/
def matchEntryHeader (line : String) : Bool :=
  let cs := (lowerChars line.data).dropWhile isNoiseChar
  let short :=
    match dropLit "short".data cs with
    | none => false
    | some cs1 => (dropLit "description".data (skipSpaces cs1)).isSome
  let entry :=
    match dropLit "change".data cs with
    | none => false
    | some cs1 =>
      match dropLit "log".data (skipSpaces cs1) with
      | none => false
      | some cs2 => (dropLit "entry".data (skipSpaces cs2)).isSome
  short || entry

/-- Model of the not-for-changelog category regex: one of the prefixes
non, in, not, un followed by dashes or whitespace and the word
significant, or the phrase not for changelog with optional spaces,
case-insensitively, anchored at the start of the category. -/
def matchNotSig (category : String) : Bool :=
  let cs := lowerChars category.data
  (["non", "in", "not", "un"].any fun p =>
    match dropLit p.data cs with
    | none => false
    | some cs1 =>
      (dropLit "significant".data (cs1.dropWhile fun c => c = '-' || isPySpace c)).isSome)
  ||
  (match dropLit "not".data cs with
   | none => false
   | some cs1 =>
     match dropLit "for".data (cs1.dropWhile (· = ' ')) with
     | none => false
     | some cs2 => (dropLit "changelog".data (cs2.dropWhile (· = ' '))).isSome)

/-- Model of the documentation category regex: the category starts with
the letters doc, case-insensitively. -/
def matchDoc (category : String) : Bool :=
  (dropLit "doc".data (lowerChars category.data)).isSome

/-- Strip the leading list-marker characters from a category value line. -/
def stripMarker (line : String) : String := ⟨line.data.dropWhile isMarkerChar⟩

/-- Remove leading and trailing Python whitespace (model of str.strip). -/
def stripChars (l : List Char) : List Char :=
  ((l.dropWhile isPySpace).reverse.dropWhile isPySpace).reverse

/-- str.strip on strings. -/
def stripStr (s : String) : String := ⟨stripChars s.data⟩

/-- Replace every maximal run of whitespace by a single space (model of
the whitespace-collapsing substitution).  The flag records whether the
previous character belonged to a run already replaced. -/
def collapseAux : Bool → List Char → List Char
  | _, [] => []
  | prevSp, c :: rest =>
    if isPySpace c then
      if prevSp then collapseAux true rest else ' ' :: collapseAux true rest
    else c :: collapseAux false rest

/-- Per-line preprocessing of the description body: strip, then collapse
internal whitespace runs to single spaces. -/
def preprocessLine (s : String) : String := ⟨collapseAux false (stripChars s.data)⟩

/-- Split a character list on a separator character (model of str.split
with a one-character separator); always returns a nonempty list. -/
def splitChar (sep : Char) : List Char → List (List Char)
  | [] => [[]]
  | c :: rest =>
    if c = sep then [] :: splitChar sep rest
    else
      match splitChar sep rest with
      | [] => [[c]]
      | h :: t => (c :: h) :: t

/-- The preprocessed lines of a pull-request body: an absent or empty
body yields no lines, otherwise the body is split on newlines and each
line stripped and whitespace-collapsed. -/
def body_lines (body : Option String) : List String :=
  match body with
  | none => []
  | some b =>
    if b = "" then []
    else (splitChar '\n' b.data).map fun l => preprocessLine ⟨l⟩

/-- Join strings with single spaces (model of the space join applied to
the collected entry lines). -/
def joinSpace : List String → String
  | [] => ""
  | [s] => s
  | s :: rest => s ++ " " ++ joinSpace rest

/-- Control state of the body-parsing scan: at the top of the loop,
expecting a category value (the flag records whether one blank line may
still be skipped), or collecting entry lines (flag as before, plus the
lines collected so far). -/
inductive ScanMode where
  | top : ScanMode
  | afterCat : Bool → ScanMode
  | afterEnt : Bool → List String → ScanMode
deriving DecidableEq

/-- One-line-at-a-time embedding of the forward scan in
generate_description.  At the top, a category header moves to category
mode and an entry header to entry-collection mode; in category mode one
blank may be skipped and the next line is taken unconditionally as the
category; in entry mode one blank may be skipped, nonblank lines are
collected, and a blank or the end of input joins the collected lines into
the entry, overwriting any previous value. -/
def scanStep : List String → ScanMode → String → String → String × String
  | [], mode, cat, ent =>
    match mode with
    | ScanMode.afterEnt _ acc => (cat, joinSpace acc)
    | _ => (cat, ent)
  | l :: rest, mode, cat, ent =>
    match mode with
    | ScanMode.top =>
      if matchCatHeader l then scanStep rest (ScanMode.afterCat true) cat ent
      else if matchEntryHeader l then scanStep rest (ScanMode.afterEnt true []) cat ent
      else scanStep rest ScanMode.top cat ent
    | ScanMode.afterCat ba =>
      if ba ∧ l = "" then scanStep rest (ScanMode.afterCat false) cat ent
      else scanStep rest ScanMode.top (stripMarker l) ent
    | ScanMode.afterEnt ba acc =>
      if ba ∧ l = "" then scanStep rest (ScanMode.afterEnt false acc) cat ent
      else if l = "" then scanStep rest ScanMode.top cat (joinSpace acc)
      else scanStep rest (ScanMode.afterEnt false (acc ++ [l])) cat ent

/-- The (category, entry) pair extracted from a list of preprocessed
lines. -/
def parse_description_lines (lines : List String) : String × String :=
  scanStep lines ScanMode.top "" ""

/-- The (category, entry) pair extracted from a raw body. -/
def extracted_pair (body : Option String) : String × String :=
  parse_description_lines (body_lines body)

/-- The extracted category with the missing-category fallback applied. -/
def extracted_category (body : Option String) : String :=
  if (extracted_pair body).1 = "" then "NO CL CATEGORY" else (extracted_pair body).1

/-- The preferred category order, also used to normalize category names. -/
def categories_preferred_order : List String :=
  ["Backward Incompatible Change",
   "New Feature",
   "Performance Improvement",
   "Improvement",
   "Bug Fix",
   "Build/Testing/Packaging Improvement",
   "Other",
   ]

/-- The normalization loop over a remaining list of canonical categories:
take the first canonical name whose fuzzy similarity with the category,
both lower-cased, reaches 90; otherwise leave the category unchanged.
The similarity scorer is the external fuzzy-matching library, passed as a
parameter. -/
def normalize_go (ratio : String → String → Nat) (category : String) :
    List String → String
  | [] => category
  | c :: rest =>
    if 90 ≤ ratio (pyLower category) (pyLower c) then c
    else normalize_go ratio category rest

/-- Category normalization at the end of generate_description. -/
def normalize_category (ratio : String → String → Nat) (category : String) : String :=
  normalize_go ratio category categories_preferred_order

/-- The fields of a fetched pull request used by the classifier. -/
structure PullSnapshot where
  number : Nat
  title : String
  body : Option String
  head_ref : String
  user : String
  html_url : String
deriving DecidableEq

/-- A classified changelog entry (the Description class; the user field
is the author handle). -/
structure Description where
  number : Nat
  user : String
  html_url : String
  entry : String
  category : String
deriving DecidableEq

/-- Whether a string starts with the given leading string. -/
def strStartsWith (s lead : String) : Bool := (dropLit lead.data s.data).isSome

/-- The integer value of a list of decimal digits. -/
def digitsVal (ds : List Char) : Int :=
  ds.foldl (fun acc c => acc * 10 + ((c.toNat - '0'.toNat : Nat) : Int)) 0

/-- Model of the int builtin on a decimal string: optional surrounding
whitespace, an optional sign, then at least one digit (digit-group
underscores are not modelled). -/
def parsePyInt (s : String) : Option Int :=
  let cs := stripChars s.data
  match cs with
  | '-' :: ds => if ds ≠ [] ∧ ds.all Char.isDigit then some (-(digitsVal ds)) else none
  | '+' :: ds => if ds ≠ [] ∧ ds.all Char.isDigit then some (digitsVal ds) else none
  | ds => if ds ≠ [] ∧ ds.all Char.isDigit then some (digitsVal ds) else none

/-- Backport resolution at the top of generate_description: when the head
branch has the backport prefix and exactly three slash-separated parts,
re-fetch the pull request numbered by the last part and classify that one
instead; any failure of the conversion or of the fetch (modelled by the
resolver returning none) keeps the original pull request. -/
def resolve_backport (resolver : Int → Option PullSnapshot) (item : PullSnapshot) :
    PullSnapshot :=
  if strStartsWith item.head_ref "backport/" then
    let parts := splitChar '/' item.head_ref.data
    if parts.length = 3 then
      match parts.getLast? with
      | none => item
      | some last =>
        match parsePyInt ⟨last⟩ with
        | none => item
        | some n =>
          match resolver n with
          | none => item
          | some it => it
    else item
  else item

/-- The entry text after the backport-prefix rule: when the surfaced
number differs from the classified pull request's number, the parsed
entry is prefixed with the backported-in reference. -/
def backport_entry (bn : Nat) (item : PullSnapshot) : String :=
  if bn ≠ item.number then
    "Backported in #" ++ Nat.repr bn ++ ": " ++ (extracted_pair item.body).2
  else (extracted_pair item.body).2

/-- The outcome of the post-processing rules of generate_description up
to, but not including, the trailing-period rule: an immediate
not-for-changelog return, a documentation skip, or the stripped entry
text and category that reach the trailing-period rule. -/
inductive ClassifyStep where
  | notSig : ClassifyStep
  | doc : ClassifyStep
  | proceed : String → String → ClassifyStep
deriving DecidableEq

/-- The rule cascade of generate_description on an already
backport-resolved pull request: not-significant categories return
immediately, documentation categories drop the entry, an empty entry is
replaced by the no-changelog-entry sentinel pair, and otherwise the
category and the stripped entry proceed to the trailing-period rule. -/
def classify_step (bn : Nat) (item : PullSnapshot) : ClassifyStep :=
  if matchNotSig (extracted_category item.body) then ClassifyStep.notSig
  else if matchDoc (extracted_category item.body) then ClassifyStep.doc
  else if backport_entry bn item = "" then
    ClassifyStep.proceed "NO CL ENTRY"
      (stripStr ("NO CL ENTRY:  '" ++ item.title ++ "'"))
  else
    ClassifyStep.proceed (extracted_category item.body)
      (stripStr (backport_entry bn item))

/-- The last character of a string, when there is one. -/
def lastChar? (s : String) : Option Char := s.data.getLast?

/-- Embedding of generate_description: resolve backports, run the rule
cascade, then apply the trailing-period rule and category normalization
and build the Description.  The fuzzy scorer and the re-fetch used for
backport resolution are external and passed as parameters. -/
def generate_description (ratio : String → String → Nat)
    (resolver : Int → Option PullSnapshot) (item0 : PullSnapshot) :
    Option Description :=
  let item := resolve_backport resolver item0
  match classify_step item0.number item with
  | ClassifyStep.notSig =>
    some ⟨item.number, item.user, item.html_url, item.title,
      "NOT FOR CHANGELOG / INSIGNIFICANT"⟩
  | ClassifyStep.doc => none
  | ClassifyStep.proceed cat ent =>
    let ent2 := if lastChar? ent ≠ some '.' then ent ++ "." else ent
    some ⟨item.number, item.user, item.html_url, ent2, normalize_category ratio cat⟩

/-! ### The record cache and the rate-limit retry loop -/

/-- The fixed backoff of sleep_on_rate_limit, in seconds. -/
def sleep_on_rate_limit_time : Nat := 20

/-- The blocking retry loop around the remote fetch: the remote is
modelled as a list of outcomes, none standing for a rate-limit error and
some for a successful fetch.  The result carries the snapshot of the
first success together with the total seconds slept; none models the
loop never returning because every outcome is a rate-limit error. -/
def fetch_with_retry : List (Option PullSnapshot) → Option (PullSnapshot × Nat)
  | [] => none
  | some pr :: _ => some (pr, 0)
  | none :: rest =>
    match fetch_with_retry rest with
    | some (pr, t) => some (pr, t + sleep_on_rate_limit_time)
    | none => none

/-- The observable outcome of get_pull_cached: the returned snapshot
(none when the retry loop never returns), whether a remote fetch was
performed, the seconds slept on rate limits, and the cache contents
afterwards. -/
structure CacheResult where
  result : Option PullSnapshot
  remote_fetch : Bool
  sleeps : Nat
  cache_after : Option (PullSnapshot × Int)
deriving DecidableEq

/-- Embedding of get_pull_cached.  The cache file is modelled as an
optional (snapshot, write-timestamp) pair and clock readings as integer
seconds.  A missing caller timestamp defaults to one hour past the
current time; a cached snapshot is returned without a remote call only
when its write timestamp is strictly greater than the caller timestamp;
otherwise the remote fetch runs under the rate-limit retry loop and the
fresh snapshot is written back with the current time. -/
def get_pull_cached (cache : Option (PullSnapshot × Int)) (now : Int)
    (updated_at : Option Int) (outcomes : List (Option PullSnapshot)) : CacheResult :=
  let upd := updated_at.getD (now + 3600)
  let hit : Option PullSnapshot :=
    match cache with
    | some (s, mtime) => if mtime > upd then some s else none
    | none => none
  match hit with
  | some s => ⟨some s, false, 0, cache⟩
  | none =>
    match fetch_with_retry outcomes with
    | some (pr, slept) => ⟨some pr, true, slept, some (pr, now)⟩
    | none => ⟨none, true, 0, cache⟩

/-! ### The aggregator -/

/-- Append a classified description to its category's bucket in the
insertion-ordered bucket map (a new category is appended at the end, as
in a Python dict). -/
def add_description (d : Description) :
    List (String × List Description) → List (String × List Description)
  | [] => [(d.category, [d])]
  | (c, l) :: rest =>
    if c = d.category then (c, l ++ [d]) :: rest
    else (c, l) :: add_description d rest

/-- Lookup in the bucket map. -/
def assoc : List (String × List Description) → String → Option (List Description)
  | [], _ => none
  | (c, l) :: rest, cat => if c = cat then some l else assoc rest cat

/-- Stable insertion by pull-request number: the new element goes in
front of the first element whose number is at least as large, which is
where a stable ascending sort places an element coming earlier in the
input. -/
def insert_desc (d : Description) : List Description → List Description
  | [] => [d]
  | e :: es => if d.number ≤ e.number then d :: e :: es else e :: insert_desc d es

/-- Stable ascending sort by pull-request number (model of list.sort with
the number-comparing less-than of Description). -/
def sortByNumber : List Description → List Description
  | [] => []
  | d :: rest => insert_desc d (sortByNumber rest)

/-- The bucket map built by the aggregation loop of get_descriptions from
the concatenated worker results. -/
def build_descriptions (descs : List Description) : List (String × List Description) :=
  descs.foldl (fun m d => add_description d m) []

/-- Embedding of get_descriptions on the concatenated worker results:
group by category in encounter order, then sort every bucket by number. -/
def get_descriptions (descs : List Description) : List (String × List Description) :=
  (build_descriptions descs).map fun p => (p.1, sortByNumber p.2)

/-- The bucket of a category in the aggregated output. -/
def bucket_of (descs : List Description) (cat : String) : Option (List Description) :=
  assoc (get_descriptions descs) cat

/-! ### Helper constructions used by concrete witnesses -/

/-- A similarity scorer giving a perfect score to equal strings and a
zero score otherwise; a legitimate instance of the pluggable edit-based
scorer. -/
def exactRatio : String → String → Nat := fun a b => if a = b then 100 else 0

/-- A resolver with no reachable pull requests. -/
def noResolver : Int → Option PullSnapshot := fun _ => none

/-- Join strings with newlines (used to build concrete bodies). -/
def joinNl : List String → String
  | [] => ""
  | [s] => s
  | s :: rest => s ++ "\n" ++ joinNl rest

/-- A string is good when it is empty or contains a non-whitespace
character; every preprocessed line is good, and goodness of the scanned
entry underlies the safety of the trailing-period rule. -/
def goodS (s : String) : Prop := s = "" ∨ ∃ c ∈ s.data, isPySpace c = false

/-- The invariant carried by the scan mode: collected entry lines are
nonempty and good. -/
def modeInv : ScanMode → Prop
  | ScanMode.afterEnt _ acc => ∀ l ∈ acc, l ≠ "" ∧ goodS l
  | _ => True

/-- Combining a previous bucket with newly filtered descriptions, as the
aggregation fold does: an absent bucket stays absent only when nothing
was filtered. -/
def combine : Option (List Description) → List Description → Option (List Description)
  | none, [] => none
  | none, l => some l
  | some l, f => some (l ++ f)

/-- Sample snapshots and descriptions for concrete instances. -/
def prA : PullSnapshot := ⟨1, "Title A", none, "main", "userA", "urlA"⟩

def itemNotSig : PullSnapshot :=
  ⟨7, "My title",
   some (joinNl ["Changelog category", "not significant", "", "Changelog entry", "Ignored"]),
   "main", "u", "h"⟩

def itemEmptyBody : PullSnapshot := ⟨3, "t.", none, "main", "u", "h"⟩

def itemPlain : PullSnapshot := ⟨4, "t", none, "main", "u", "h"⟩

def itemFull : PullSnapshot :=
  ⟨9, "T", some (joinNl ["Changelog category", "Bug Fix", "", "Changelog entry", "Fixed x"]),
   "main", "u", "h"⟩

def prB : PullSnapshot := ⟨2, "Title B", none, "main", "userB", "urlB"⟩

def descA : Description := ⟨5, "u", "h", "entry one", "Bug Fix"⟩

def descB : Description := ⟨5, "u", "h", "entry two", "Bug Fix"⟩

def descC : Description := ⟨500, "u", "h", "late entry", "Improvement"⟩

def descD : Description := ⟨100, "u", "h", "early entry", "Improvement"⟩

/-! ### Lemmas on whitespace stripping, collapsing and joining -/

theorem dropWhile_head_false {p : Char → Bool} {l t : List Char} {c : Char}
    (h : l.dropWhile p = c :: t) : p c = false := by
  induction l with
  | nil => simp [List.dropWhile] at h
  | cons a l ih =>
    rw [List.dropWhile_cons] at h
    by_cases ha : p a = true
    · rw [if_pos ha] at h
      exact ih h
    · rw [if_neg ha] at h
      cases h
      simpa using ha

theorem mem_dropWhile {p : Char → Bool} {c : Char} (hc : p c = false) :
    ∀ {l : List Char}, c ∈ l → c ∈ l.dropWhile p := by
  intro l
  induction l with
  | nil => simp
  | cons a l ih =>
    intro h
    rw [List.dropWhile_cons]
    by_cases ha : p a = true
    · rw [if_pos ha]
      rcases List.mem_cons.mp h with rfl | h'
      · rw [hc] at ha
        cases ha
      · exact ih h'
    · rw [if_neg ha]
      exact h

theorem mem_stripChars {c : Char} (hc : isPySpace c = false) {l : List Char}
    (h : c ∈ l) : c ∈ stripChars l := by
  unfold stripChars
  exact List.mem_reverse.mpr
    (mem_dropWhile hc (List.mem_reverse.mpr (mem_dropWhile hc h)))

theorem stripStr_ne_empty {s : String} (h : ∃ c ∈ s.data, isPySpace c = false) :
    stripStr s ≠ "" := by
  rcases h with ⟨c, hm, hc⟩
  intro he
  have hdata : (stripStr s).data = [] := by rw [he]
  have : c ∈ (stripStr s).data := mem_stripChars hc hm
  rw [hdata] at this
  simp at this

theorem stripChars_nil_or_mem (l : List Char) :
    stripChars l = [] ∨ ∃ c ∈ stripChars l, isPySpace c = false := by
  cases hd : l.dropWhile isPySpace with
  | nil =>
    left
    unfold stripChars
    rw [hd]
    rfl
  | cons c t =>
    right
    have hc : isPySpace c = false := dropWhile_head_false hd
    refine ⟨c, ?_, hc⟩
    unfold stripChars
    refine List.mem_reverse.mpr (mem_dropWhile hc (List.mem_reverse.mpr ?_))
    rw [hd]
    exact List.mem_cons_self c t

theorem mem_collapseAux {c : Char} (hc : isPySpace c = false) :
    ∀ (b : Bool) {l : List Char}, c ∈ l → c ∈ collapseAux b l := by
  intro b l
  induction l generalizing b with
  | nil => simp
  | cons a l ih =>
    intro h
    unfold collapseAux
    by_cases ha : isPySpace a = true
    · rw [if_pos ha]
      have h' : c ∈ l := by
        rcases List.mem_cons.mp h with rfl | h'
        · rw [hc] at ha
          cases ha
        · exact h'
      by_cases hb : b
      · rw [if_pos hb]
        exact ih true h'
      · rw [if_neg hb]
        exact List.mem_cons_of_mem _ (ih true h')
    · rw [if_neg ha]
      rcases List.mem_cons.mp h with rfl | h'
      · exact List.mem_cons_self c _
      · exact List.mem_cons_of_mem _ (ih false h')

theorem preprocessLine_good (s : String) : goodS (preprocessLine s) := by
  rcases stripChars_nil_or_mem s.data with h | ⟨c, hm, hc⟩
  · left
    unfold preprocessLine
    rw [h]
    rfl
  · right
    exact ⟨c, mem_collapseAux hc false hm, hc⟩

theorem mem_joinSpace {c : Char} {s : String} (h : c ∈ s.data) :
    ∀ rest, c ∈ (joinSpace (s :: rest)).data := by
  intro rest
  cases rest with
  | nil => simpa [joinSpace] using h
  | cons r t =>
    show c ∈ (s ++ " " ++ joinSpace (r :: t)).data
    rw [String.data_append, String.data_append]
    exact List.mem_append_left _ (List.mem_append_left _ h)

theorem joinSpace_good {acc : List String} (h : ∀ l ∈ acc, l ≠ "" ∧ goodS l) :
    goodS (joinSpace acc) := by
  cases acc with
  | nil => exact Or.inl rfl
  | cons s rest =>
    obtain ⟨hne, hg⟩ := h s (List.mem_cons_self s rest)
    rcases hg with h0 | ⟨c, hm, hc⟩
    · exact absurd h0 hne
    · exact Or.inr ⟨c, mem_joinSpace hm rest, hc⟩

theorem scanStep_entry_good :
    ∀ (lines : List String) (mode : ScanMode) (cat ent : String),
      (∀ l ∈ lines, goodS l) → modeInv mode → goodS ent →
      goodS (scanStep lines mode cat ent).2 := by
  intro lines
  induction lines with
  | nil =>
    intro mode cat ent _ hinv hent
    cases mode with
    | top => exact hent
    | afterCat ba => exact hent
    | afterEnt ba acc => exact joinSpace_good hinv
  | cons l rest ih =>
    intro mode cat ent hlines hinv hent
    have hl : goodS l := hlines l (List.mem_cons_self l rest)
    have hrest : ∀ x ∈ rest, goodS x := fun x hx => hlines x (List.mem_cons_of_mem l hx)
    cases mode with
    | top =>
      show goodS (scanStep (l :: rest) ScanMode.top cat ent).2
      rw [scanStep]
      by_cases h1 : matchCatHeader l = true
      · rw [if_pos h1]
        exact ih _ cat ent hrest trivial hent
      · rw [if_neg h1]
        by_cases h2 : matchEntryHeader l = true
        · rw [if_pos h2]
          exact ih _ cat ent hrest (by intro x hx; simp at hx) hent
        · rw [if_neg h2]
          exact ih _ cat ent hrest trivial hent
    | afterCat ba =>
      rw [scanStep]
      by_cases h1 : ba = true ∧ l = ""
      · rw [if_pos h1]
        exact ih _ cat ent hrest trivial hent
      · rw [if_neg h1]
        exact ih _ _ ent hrest trivial hent
    | afterEnt ba acc =>
      rw [scanStep]
      by_cases h1 : ba = true ∧ l = ""
      · rw [if_pos h1]
        exact ih _ cat ent hrest hinv hent
      · rw [if_neg h1]
        by_cases h2 : l = ""
        · rw [if_pos h2]
          exact ih _ cat _ hrest trivial (joinSpace_good hinv)
        · rw [if_neg h2]
          refine ih _ cat ent hrest ?_ hent
          intro x hx
          rcases List.mem_append.mp hx with hx' | hx'
          · exact hinv x hx'
          · rcases List.mem_singleton.mp hx' with rfl
            exact ⟨h2, hl⟩

theorem body_lines_good (body : Option String) : ∀ l ∈ body_lines body, goodS l := by
  intro l hl
  cases body with
  | none => simp [body_lines] at hl
  | some b =>
    have hl' : l ∈ (if b = "" then ([] : List String)
        else (splitChar '\n' b.data).map fun x => preprocessLine ⟨x⟩) := hl
    by_cases hb : b = ""
    · rw [if_pos hb] at hl'
      simp at hl'
    · rw [if_neg hb] at hl'
      rcases List.mem_map.mp hl' with ⟨raw, _, rfl⟩
      exact preprocessLine_good _

theorem extracted_entry_good (body : Option String) : goodS (extracted_pair body).2 :=
  scanStep_entry_good _ ScanMode.top "" "" (body_lines_good body) trivial (Or.inl rfl)

theorem stripChars_ends_nonspace {c c' : Char} (hc : isPySpace c = false)
    (hc' : isPySpace c' = false) (X : List Char) :
    stripChars (c :: (X ++ [c'])) = c :: (X ++ [c']) := by
  unfold stripChars
  rw [List.dropWhile_cons, if_neg (by simp [hc]), List.reverse_cons,
    List.reverse_append]
  show (((c' :: X.reverse) ++ [c]).dropWhile isPySpace).reverse = _
  rw [List.cons_append, List.dropWhile_cons, if_neg (by simp [hc']),
    List.reverse_cons, List.reverse_append]
  simp

/-! ### Lemmas on category normalization -/

theorem normalize_go_of_none (ratio : String → String → Nat) (s : String) :
    ∀ l : List String, (∀ C ∈ l, ratio (pyLower s) (pyLower C) < 90) →
      normalize_go ratio s l = s := by
  intro l
  induction l with
  | nil => intro _; rfl
  | cons c rest ih =>
    intro h
    rw [normalize_go,
      if_neg (Nat.not_le.mpr (h c (List.mem_cons_self c rest)))]
    exact ih fun C hC => h C (List.mem_cons_of_mem c hC)

theorem normalize_go_first (ratio : String → String → Nat) (s : String) :
    ∀ (l : List String) (C : String), C ∈ l →
      90 ≤ ratio (pyLower s) (pyLower C) →
      ∃ pre C0 post, l = pre ++ C0 :: post ∧ normalize_go ratio s l = C0 ∧
        90 ≤ ratio (pyLower s) (pyLower C0) ∧
        ∀ c ∈ pre, ratio (pyLower s) (pyLower c) < 90 := by
  intro l
  induction l with
  | nil => intro C h; simp at h
  | cons c rest ih =>
    intro C hC hscore
    by_cases hc : 90 ≤ ratio (pyLower s) (pyLower c)
    · exact ⟨[], c, rest, rfl, by rw [normalize_go, if_pos hc], hc, by simp⟩
    · have hCrest : C ∈ rest := by
        rcases List.mem_cons.mp hC with rfl | h'
        · exact absurd hscore hc
        · exact h'
      obtain ⟨pre, C0, post, hl, hn, hge, hpre⟩ := ih C hCrest hscore
      refine ⟨c :: pre, C0, post, by rw [hl]; rfl, ?_, hge, ?_⟩
      · rw [normalize_go, if_neg hc, hn]
      · intro x hx
        rcases List.mem_cons.mp hx with rfl | hx'
        · exact Nat.lt_of_not_le hc
        · exact hpre x hx'

/-! ### The claims -/

/-- Claim C1: category normalization replaces the extracted category with
the first canonical category of the preferred-order list whose
case-insensitive fuzzy similarity with it reaches 90, and leaves it
unchanged when no canonical category reaches 90.  The fuzzy scorer of the
external library is universally quantified. -/
theorem normalize_category_first_match (ratio : String → String → Nat) (s : String) :
    ((∀ C ∈ categories_preferred_order, ratio (pyLower s) (pyLower C) < 90) →
      normalize_category ratio s = s) ∧
    (∀ C ∈ categories_preferred_order, 90 ≤ ratio (pyLower s) (pyLower C) →
      ∃ pre C0 post, categories_preferred_order = pre ++ C0 :: post ∧
        normalize_category ratio s = C0 ∧
        90 ≤ ratio (pyLower s) (pyLower C0) ∧
        ∀ c ∈ pre, ratio (pyLower s) (pyLower c) < 90) :=
  ⟨normalize_go_of_none ratio s categories_preferred_order,
   fun C hC h => normalize_go_first ratio s categories_preferred_order C hC h⟩

/-- Witness for claim C1, at a concrete scorer: a category with no
match is left unchanged, and a matching category is normalized to the
first canonical category that scores at least 90. -/
theorem normalize_category_first_match_witness :
    normalize_category exactRatio "unmatched" = "unmatched" ∧
    ∃ pre C0 post, categories_preferred_order = pre ++ C0 :: post ∧
      normalize_category exactRatio "improvement" = C0 ∧
      90 ≤ exactRatio (pyLower "improvement") (pyLower C0) ∧
      ∀ c ∈ pre, exactRatio (pyLower "improvement") (pyLower c) < 90 :=
  ⟨(normalize_category_first_match exactRatio "unmatched").1 (by decide),
   (normalize_category_first_match exactRatio "improvement").2 "Improvement"
     (by decide) (by decide)⟩

/-- Claim C6: the retry loop of get_pull_cached absorbs every rate-limit
error before the first successful fetch, sleeping the fixed 20-second
backoff once per error, and returns the first successfully fetched
snapshot; in particular it never propagates a rate-limit error when a
success eventually occurs. -/
theorem fetch_with_retry_recovers (outs : List (Option PullSnapshot))
    (h : ∃ pr, some pr ∈ outs) :
    ∃ k pr rest, outs = List.replicate k none ++ some pr :: rest ∧
      fetch_with_retry outs = some (pr, sleep_on_rate_limit_time * k) := by
  induction outs with
  | nil =>
    rcases h with ⟨pr, hpr⟩
    simp at hpr
  | cons o rest ih =>
    cases o with
    | some pr => exact ⟨0, pr, rest, by simp, by simp [fetch_with_retry]⟩
    | none =>
      rcases h with ⟨pr, hpr⟩
      have h' : ∃ p, some p ∈ rest := ⟨pr, by simpa using hpr⟩
      obtain ⟨k, p, r, heq, hf⟩ := ih h'
      refine ⟨k + 1, p, r, ?_, ?_⟩
      · rw [heq]
        simp [List.replicate_succ]
      · rw [fetch_with_retry, hf]
        simp [Nat.mul_succ]

/-- Witness for claim C6: one rate-limit error followed by a success is
absorbed with a single 20-second sleep. -/
theorem fetch_with_retry_recovers_witness :
    ∃ k pr rest, [none, some prA] = List.replicate k none ++ some pr :: rest ∧
      fetch_with_retry [none, some prA] = some (pr, sleep_on_rate_limit_time * k) :=
  fetch_with_retry_recovers [none, some prA] ⟨prA, by simp⟩

/-- Counterexample to claim C5 as stated: when the cache write timestamp
equals the caller-supplied timestamp (the boundary the claim places on
the cached side) the code refetches: the remote fetch runs and the
fetched snapshot, not the cached one, is returned. -/
theorem get_pull_cached_equal_timestamp_counterexample :
    get_pull_cached (some (prA, 100)) 100 (some 100) [some prB] =
      ⟨some prB, true, 0, some (prB, 100)⟩ ∧ prB ≠ prA := by
  constructor
  · decide
  · decide

/-- Claim C5 (amended): the cached snapshot is returned without a remote
fetch exactly when the cache write timestamp is strictly greater than
the caller-supplied timestamp; on a miss or stale hit the remote fetch
runs and the fresh snapshot is written back before being returned. -/
theorem get_pull_cached_spec (s : PullSnapshot) (m now u : Int)
    (outs : List (Option PullSnapshot)) :
    (u < m →
      get_pull_cached (some (s, m)) now (some u) outs =
        ⟨some s, false, 0, some (s, m)⟩) ∧
    (m ≤ u → ∀ pr slept, fetch_with_retry outs = some (pr, slept) →
      get_pull_cached (some (s, m)) now (some u) outs =
        ⟨some pr, true, slept, some (pr, now)⟩) ∧
    (∀ pr slept, fetch_with_retry outs = some (pr, slept) →
      get_pull_cached none now (some u) outs =
        ⟨some pr, true, slept, some (pr, now)⟩) := by
  refine ⟨?_, ?_, ?_⟩
  · intro h
    simp [get_pull_cached, h]
  · intro h pr slept hf
    simp [get_pull_cached, hf, not_lt.mpr h]
  · intro pr slept hf
    simp [get_pull_cached, hf]

/-- Witness for the amended claim C5: a strictly fresher cache entry is
served from cache, and an equal-or-older one triggers a remote fetch and
a cache write. -/
theorem get_pull_cached_spec_witness :
    get_pull_cached (some (prA, 200)) 100 (some 150) [some prB] =
      ⟨some prA, false, 0, some (prA, 200)⟩ ∧
    get_pull_cached (some (prA, 100)) 100 (some 150) [some prB] =
      ⟨some prB, true, 0, some (prB, 100)⟩ :=
  ⟨(get_pull_cached_spec prA 200 100 150 [some prB]).1 (by decide),
   (get_pull_cached_spec prA 100 100 150 [some prB]).2.1 (by decide) prB 0 (by decide)⟩

/-- Claim C9: when the caller omits the timestamp, the default is one
hour past the present, so any cache entry whose write timestamp is not
in the future fails the freshness check and a remote fetch is performed
and returned; backport-original re-fetches therefore never serve such a
cached snapshot. -/
theorem get_pull_cached_default_refetches (s : PullSnapshot) (m now : Int)
    (outs : List (Option PullSnapshot)) (pr : PullSnapshot) (slept : Nat)
    (hm : m ≤ now) (hf : fetch_with_retry outs = some (pr, slept)) :
    get_pull_cached (some (s, m)) now none outs =
      ⟨some pr, true, slept, some (pr, now)⟩ := by
  have hlt : ¬ (now + 3600 < m) := by omega
  simp [get_pull_cached, hf, hlt]

/-- Witness for claim C9: a cache entry written at the current time is
refetched when the caller omits the timestamp. -/
theorem get_pull_cached_default_refetches_witness :
    get_pull_cached (some (prA, 100)) 100 none [some prB] =
      ⟨some prB, true, 0, some (prB, 100)⟩ :=
  get_pull_cached_default_refetches prA 100 100 [some prB] prB 0 (by decide) (by decide)

/-! ### Lemmas on the aggregator -/

theorem assoc_add (d : Description) (cat : String) :
    ∀ m, assoc (add_description d m) cat =
      if d.category = cat then some ((assoc m cat).getD [] ++ [d])
      else assoc m cat := by
  intro m
  induction m with
  | nil =>
    by_cases h : d.category = cat <;> simp [add_description, assoc, h]
  | cons p rest ih =>
    obtain ⟨c, l⟩ := p
    by_cases h1 : c = d.category
    · by_cases h2 : c = cat
      · rw [add_description, if_pos h1, assoc, if_pos h2,
          if_pos (h1.symm.trans h2), assoc, if_pos h2]
        rfl
      · have hdc : d.category ≠ cat := fun h => h2 (h1.trans h)
        rw [add_description, if_pos h1, assoc, if_neg h2, if_neg hdc, assoc,
          if_neg h2]
    · rw [add_description, if_neg h1]
      by_cases h2 : c = cat
      · have hdc : d.category ≠ cat := fun h => h1 (h2.trans h.symm)
        rw [assoc, if_pos h2, if_neg hdc, assoc, if_pos h2]
      · rw [assoc, if_neg h2, ih, assoc, if_neg h2]

theorem assoc_foldl (cat : String) :
    ∀ (ds : List Description) (m : List (String × List Description)),
      assoc (ds.foldl (fun m d => add_description d m) m) cat =
        combine (assoc m cat) (ds.filter fun d => d.category == cat) := by
  intro ds
  induction ds with
  | nil =>
    intro m
    rw [List.foldl_nil, List.filter_nil]
    cases h : assoc m cat with
    | none => rfl
    | some l => simp [combine]
  | cons d ds ih =>
    intro m
    rw [List.foldl_cons, ih, assoc_add, List.filter_cons]
    by_cases h : d.category = cat
    · rw [if_pos h, if_pos (by simp [h])]
      cases ha : assoc m cat with
      | none => simp [combine]
      | some l => simp [combine]
    · rw [if_neg h, if_neg (by simp [h])]

theorem assoc_map_sort (cat : String) :
    ∀ m : List (String × List Description),
      assoc (m.map fun p => (p.1, sortByNumber p.2)) cat =
        (assoc m cat).map sortByNumber := by
  intro m
  induction m with
  | nil => rfl
  | cons p rest ih =>
    obtain ⟨c, l⟩ := p
    rw [List.map_cons]
    by_cases h : c = cat
    · rw [assoc, if_pos h, assoc, if_pos h]
      rfl
    · rw [assoc, if_neg h, assoc, if_neg h, ih]

theorem insert_desc_perm (d : Description) :
    ∀ l, (insert_desc d l).Perm (d :: l) := by
  intro l
  induction l with
  | nil => exact List.Perm.refl _
  | cons e es ih =>
    rw [insert_desc]
    by_cases h : d.number ≤ e.number
    · rw [if_pos h]
    · rw [if_neg h]
      exact (List.Perm.cons e ih).trans (List.Perm.swap d e es)

theorem sortByNumber_perm : ∀ l, (sortByNumber l).Perm l := by
  intro l
  induction l with
  | nil => exact List.Perm.refl _
  | cons d rest ih =>
    rw [sortByNumber]
    exact (insert_desc_perm d _).trans (ih.cons d)

theorem insert_desc_sorted (d : Description) :
    ∀ {l : List Description}, (l.Pairwise fun a b => a.number ≤ b.number) →
      (insert_desc d l).Pairwise fun a b => a.number ≤ b.number := by
  intro l
  induction l with
  | nil =>
    intro _
    simp [insert_desc]
  | cons e es ih =>
    intro h
    rcases List.pairwise_cons.mp h with ⟨he, hes⟩
    rw [insert_desc]
    by_cases hd : d.number ≤ e.number
    · rw [if_pos hd]
      refine List.pairwise_cons.mpr ⟨?_, h⟩
      intro x hx
      rcases List.mem_cons.mp hx with rfl | hx'
      · exact hd
      · exact le_trans hd (he x hx')
    · rw [if_neg hd]
      refine List.pairwise_cons.mpr ⟨?_, ih hes⟩
      intro x hx
      have hx' : x ∈ d :: es := (insert_desc_perm d es).mem_iff.mp hx
      rcases List.mem_cons.mp hx' with rfl | hx''
      · exact Nat.le_of_not_le hd
      · exact he x hx''

theorem sortByNumber_sorted : ∀ l : List Description,
    (sortByNumber l).Pairwise fun a b => a.number ≤ b.number := by
  intro l
  induction l with
  | nil => simp [sortByNumber]
  | cons d rest ih =>
    rw [sortByNumber]
    exact insert_desc_sorted d ih

/-- Counterexample to claim C2 as stated: two classified entries with
the same pull-request number land in the same bucket and are both kept,
so the bucket does contain two entries with the same identifier. -/
theorem get_descriptions_duplicate_counterexample :
    get_descriptions [descA, descB] = [("Bug Fix", [descA, descB])] ∧
    descA.number = descB.number ∧ descA ≠ descB := by
  refine ⟨by decide, by decide, by decide⟩

/-- Claim C2 (amended): every aggregated bucket is sorted ascending
(non-strictly) by pull-request number and is a permutation of the input
entries carrying that category; entries with equal identifiers are all
kept, not collapsed. -/
theorem get_descriptions_buckets (descs : List Description) (cat : String)
    (b : List Description) (h : bucket_of descs cat = some b) :
    (b.Pairwise fun a d => a.number ≤ d.number) ∧
    b.Perm (descs.filter fun d => d.category == cat) := by
  unfold bucket_of get_descriptions build_descriptions at h
  rw [assoc_map_sort, assoc_foldl] at h
  cases hf : descs.filter (fun d => d.category == cat) with
  | nil =>
    rw [hf] at h
    simp [assoc, combine] at h
  | cons x xs =>
    rw [hf] at h
    have h' : some (sortByNumber (x :: xs)) = some b := by
      simpa [assoc, combine] using h
    obtain rfl : b = sortByNumber (x :: xs) := (Option.some.inj h').symm
    exact ⟨sortByNumber_sorted _, sortByNumber_perm _⟩

/-- Witness for the amended claim C2: entries with numbers 500 and 100
and a shared category produce the bucket ordered 100 then 500, a
permutation of the two inputs. -/
theorem get_descriptions_buckets_witness :
    (([descD, descC] : List Description).Pairwise fun a d => a.number ≤ d.number) ∧
    ([descD, descC] : List Description).Perm
      ([descC, descD].filter fun d => d.category == "Improvement") :=
  get_descriptions_buckets [descC, descD] "Improvement" [descD, descC] (by decide)

/-! ### The classifier claims -/

/-- Claim C10: on every path of the classifier that reaches the
trailing-period rule the entry text is nonempty there (the empty entry
was replaced by the sentinel text, and the backport prefix is itself
nonempty), so taking the last character of the entry cannot fail. -/
theorem classify_entry_nonempty_at_period (bn : Nat) (item : PullSnapshot)
    (cat ent : String)
    (h : classify_step bn item = ClassifyStep.proceed cat ent) : ent ≠ "" := by
  unfold classify_step at h
  by_cases h1 : matchNotSig (extracted_category item.body) = true
  · rw [if_pos h1] at h
    simp at h
  rw [if_neg h1] at h
  by_cases h2 : matchDoc (extracted_category item.body) = true
  · rw [if_pos h2] at h
    simp at h
  rw [if_neg h2] at h
  by_cases h3 : backport_entry bn item = ""
  · rw [if_pos h3] at h
    injection h with hcat hent
    rw [← hent]
    apply stripStr_ne_empty
    refine ⟨'N', ?_, by decide⟩
    rw [String.data_append, String.data_append]
    exact List.mem_append_left _ (List.mem_append_left _ (by decide))
  · rw [if_neg h3] at h
    injection h with hcat hent
    rw [← hent]
    apply stripStr_ne_empty
    rw [backport_entry] at h3 ⊢
    by_cases h4 : bn ≠ item.number
    · rw [if_pos h4]
      refine ⟨'B', ?_, by decide⟩
      rw [String.data_append, String.data_append, String.data_append]
      exact List.mem_append_left _
        (List.mem_append_left _ (List.mem_append_left _ (by decide)))
    · rw [if_neg h4] at h3 ⊢
      rcases extracted_entry_good item.body with h0 | hgood
      · exact absurd h0 h3
      · exact hgood

/-- Witness for claim C10: a body with a category and an entry reaches
the trailing-period rule with the nonempty entry text. -/
theorem classify_entry_nonempty_at_period_witness : ("Fixed x" : String) ≠ "" :=
  classify_entry_nonempty_at_period 9 itemFull "Bug Fix" "Fixed x" (by decide)

/-- Claim C8: when the extracted category of the (backport-resolved)
pull request matches the not-significant pattern, the classifier returns
immediately with the sentinel category and the pull-request title as the
entry, verbatim: the parsed body entry is dropped, and no backport
prefix, trailing period, or category normalization is applied. -/
theorem classify_not_significant (ratio : String → String → Nat)
    (resolver : Int → Option PullSnapshot) (item0 : PullSnapshot)
    (h : matchNotSig (extracted_category (resolve_backport resolver item0).body) = true) :
    generate_description ratio resolver item0 =
      some ⟨(resolve_backport resolver item0).number,
            (resolve_backport resolver item0).user,
            (resolve_backport resolver item0).html_url,
            (resolve_backport resolver item0).title,
            "NOT FOR CHANGELOG / INSIGNIFICANT"⟩ := by
  simp only [generate_description]
  rw [classify_step, if_pos h]

/-- Witness for claim C8: a body whose category line is not significant
yields the sentinel category and the title as the entry. -/
theorem classify_not_significant_witness :
    generate_description exactRatio noResolver itemNotSig =
      some ⟨7, "u", "h", "My title", "NOT FOR CHANGELOG / INSIGNIFICANT"⟩ := by
  have h := classify_not_significant exactRatio noResolver itemNotSig (by decide)
  rw [h]
  decide

/-- Counterexample to claim C7 as stated: for an empty body and the
title ending in a period, the entry produced has two spaces after the
colon and a period appended anyway (the pre-period text ends in a
quote), so it differs from the single-space, no-extra-period text the
claim specifies. -/
theorem classify_empty_body_counterexample :
    (generate_description exactRatio noResolver itemEmptyBody).map Description.entry =
      some "NO CL ENTRY:  't.'." ∧
    ("NO CL ENTRY:  't.'." : String) ≠ "NO CL ENTRY: 't.'" := by
  exact ⟨by decide, by decide⟩

theorem sentinel_data_shape (t : String) :
    ("NO CL ENTRY:  '" ++ t ++ "'").data =
      'N' :: (("O CL ENTRY:  '".data ++ t.data) ++ ['\'']) := by
  rw [String.data_append, String.data_append]
  show ('N' :: "O CL ENTRY:  '".data ++ t.data) ++ ['\''] = _
  simp

/-- Claim C7 (amended): for a pull request with an empty or absent body,
the classifier first falls through the NO CL CATEGORY assignment and
then produces the NO CL ENTRY sentinel: the category is NO CL ENTRY and
the entry text is exactly the sentinel prefix with two spaces after the
colon, the quoted title, and a trailing period that is always appended
because the text before the period rule ends with a quote character. -/
theorem classify_empty_body (ratio : String → String → Nat)
    (resolver : Int → Option PullSnapshot) (item : PullSnapshot)
    (hbr : strStartsWith item.head_ref "backport/" = false)
    (hbody : item.body = none ∨ item.body = some "")
    (hratio : ∀ C ∈ categories_preferred_order,
      ratio (pyLower "NO CL ENTRY") (pyLower C) < 90) :
    generate_description ratio resolver item =
      some ⟨item.number, item.user, item.html_url,
        "NO CL ENTRY:  '" ++ item.title ++ "'.", "NO CL ENTRY"⟩ := by
  have hres : resolve_backport resolver item = item := by
    rw [resolve_backport, if_neg (by simp [hbr])]
  have hpair : extracted_pair item.body = ("", "") := by
    rcases hbody with h | h <;> rw [h] <;> rfl
  have hcat : extracted_category item.body = "NO CL CATEGORY" := by
    simp [extracted_category, hpair]
  have hbe : backport_entry item.number item = "" := by
    rw [backport_entry, if_neg (by simp), hpair]
  have hstep : classify_step item.number item =
      ClassifyStep.proceed "NO CL ENTRY"
        (stripStr ("NO CL ENTRY:  '" ++ item.title ++ "'")) := by
    rw [classify_step, hcat, if_neg (by decide), if_neg (by decide), if_pos hbe]
  have hstrip : stripStr ("NO CL ENTRY:  '" ++ item.title ++ "'") =
      "NO CL ENTRY:  '" ++ item.title ++ "'" := by
    apply String.ext
    show stripChars ("NO CL ENTRY:  '" ++ item.title ++ "'").data = _
    rw [sentinel_data_shape, stripChars_ends_nonspace (by decide) (by decide)]
  have hlast : lastChar? ("NO CL ENTRY:  '" ++ item.title ++ "'") = some '\'' := by
    rw [lastChar?, String.data_append]
    exact List.getLast?_concat _
  have hnorm : normalize_category ratio "NO CL ENTRY" = "NO CL ENTRY" :=
    normalize_go_of_none ratio "NO CL ENTRY" categories_preferred_order hratio
  simp only [generate_description, hres, hstep]
  rw [hstrip]
  rw [if_pos (by rw [hlast]; decide), hnorm]
  have happ : ("NO CL ENTRY:  '" ++ item.title ++ "'") ++ "." =
      "NO CL ENTRY:  '" ++ item.title ++ "'." := by
    apply String.ext
    simp [String.data_append]
  rw [happ]

/-- Witness for the amended claim C7: a concrete pull request with an
absent body produces the double-spaced sentinel entry with the appended
period. -/
theorem classify_empty_body_witness :
    generate_description exactRatio noResolver itemPlain =
      some ⟨itemPlain.number, itemPlain.user, itemPlain.html_url,
        "NO CL ENTRY:  '" ++ itemPlain.title ++ "'.", "NO CL ENTRY"⟩ :=
  classify_empty_body exactRatio noResolver itemPlain (by decide)
    (Or.inl rfl) (by decide)

/-! ### Single-step lemmas for the body scan -/

theorem scanStep_top_cat {l : String} (h : matchCatHeader l = true)
    (rest : List String) (cat ent : String) :
    scanStep (l :: rest) ScanMode.top cat ent =
      scanStep rest (ScanMode.afterCat true) cat ent := by
  simp [scanStep, h]

theorem scanStep_top_ent {l : String} (h1 : matchCatHeader l = false)
    (h2 : matchEntryHeader l = true) (rest : List String) (cat ent : String) :
    scanStep (l :: rest) ScanMode.top cat ent =
      scanStep rest (ScanMode.afterEnt true []) cat ent := by
  simp [scanStep, h1, h2]

theorem scanStep_top_skip {l : String} (h1 : matchCatHeader l = false)
    (h2 : matchEntryHeader l = false) (rest : List String) (cat ent : String) :
    scanStep (l :: rest) ScanMode.top cat ent = scanStep rest ScanMode.top cat ent := by
  simp [scanStep, h1, h2]

theorem scanStep_cat_take {l : String} (h : l ≠ "") (ba : Bool)
    (rest : List String) (cat ent : String) :
    scanStep (l :: rest) (ScanMode.afterCat ba) cat ent =
      scanStep rest ScanMode.top (stripMarker l) ent := by
  simp [scanStep, h]

theorem scanStep_ent_collect {l : String} (h : l ≠ "") (ba : Bool)
    (acc rest : List String) (cat ent : String) :
    scanStep (l :: rest) (ScanMode.afterEnt ba acc) cat ent =
      scanStep rest (ScanMode.afterEnt false (acc ++ [l])) cat ent := by
  simp [scanStep, h]

theorem scanStep_ent_blank_end (acc rest : List String) (cat ent : String) :
    scanStep ("" :: rest) (ScanMode.afterEnt false acc) cat ent =
      scanStep rest ScanMode.top cat (joinSpace acc) := by
  simp [scanStep]

theorem scanStep_nil_ent (ba : Bool) (acc : List String) (cat ent : String) :
    scanStep [] (ScanMode.afterEnt ba acc) cat ent = (cat, joinSpace acc) := rfl

theorem scanStep_nil_top (cat ent : String) :
    scanStep [] ScanMode.top cat ent = (cat, ent) := rfl

theorem scanStep_collect_end :
    ∀ (es acc : List String) (cat ent : String), (∀ l ∈ es, l ≠ "") →
      scanStep es (ScanMode.afterEnt false acc) cat ent = (cat, joinSpace (acc ++ es)) := by
  intro es
  induction es with
  | nil =>
    intro acc cat ent _
    simp [scanStep_nil_ent]
  | cons e es ih =>
    intro acc cat ent h
    rw [scanStep_ent_collect (h e (List.mem_cons_self e es)) false,
      ih (acc ++ [e]) cat ent fun l hl => h l (List.mem_cons_of_mem e hl)]
    simp

theorem scanStep_collect_blank :
    ∀ (es rest acc : List String) (cat ent : String), (∀ l ∈ es, l ≠ "") →
      scanStep (es ++ "" :: rest) (ScanMode.afterEnt false acc) cat ent =
        scanStep rest ScanMode.top cat (joinSpace (acc ++ es)) := by
  intro es
  induction es with
  | nil =>
    intro rest acc cat ent _
    show scanStep ("" :: rest) _ _ _ = _
    rw [scanStep_ent_blank_end]
    simp
  | cons e es ih =>
    intro rest acc cat ent h
    show scanStep (e :: (es ++ "" :: rest)) _ _ _ = _
    rw [scanStep_ent_collect (h e (List.mem_cons_self e es)) false,
      ih rest (acc ++ [e]) cat ent fun l hl => h l (List.mem_cons_of_mem e hl)]
    simp

/-! ### Splitting and joining body lines -/

theorem splitChar_no_sep {sep : Char} :
    ∀ {l : List Char}, sep ∉ l → splitChar sep l = [l] := by
  intro l
  induction l with
  | nil => intro _; rfl
  | cons c rest ih =>
    intro h
    have hc : ¬ c = sep := fun hh => h (hh ▸ List.mem_cons_self c rest)
    rw [splitChar, if_neg hc, ih fun hm => h (List.mem_cons_of_mem c hm)]

theorem splitChar_append_sep {sep : Char} :
    ∀ {l : List Char} (m : List Char), sep ∉ l →
      splitChar sep (l ++ sep :: m) = l :: splitChar sep m := by
  intro l
  induction l with
  | nil =>
    intro m _
    show splitChar sep (sep :: m) = [] :: splitChar sep m
    rw [splitChar, if_pos rfl]
  | cons c rest ih =>
    intro m h
    have hc : ¬ c = sep := fun hh => h (hh ▸ List.mem_cons_self c rest)
    show splitChar sep (c :: (rest ++ sep :: m)) = _
    rw [splitChar, if_neg hc, ih m fun hm => h (List.mem_cons_of_mem c hm)]

theorem splitChar_joinNl :
    ∀ ls : List String, ls ≠ [] → (∀ l ∈ ls, '\n' ∉ l.data) →
      splitChar '\n' (joinNl ls).data = ls.map String.data := by
  intro ls
  induction ls with
  | nil => intro h _; cases h rfl
  | cons s rest ih =>
    intro _ h
    cases rest with
    | nil =>
      show splitChar '\n' s.data = [s.data]
      exact splitChar_no_sep (h s (List.mem_cons_self s []))
    | cons r t =>
      show splitChar '\n' (joinNl (s :: r :: t)).data = s.data :: (r :: t).map String.data
      have hj : (joinNl (s :: r :: t)).data = s.data ++ '\n' :: (joinNl (r :: t)).data := by
        show ((s ++ "\n") ++ joinNl (r :: t)).data = _
        rw [String.data_append, String.data_append]
        simp
      rw [hj, splitChar_append_sep _ (h s (List.mem_cons_self s _)),
        ih (by simp) fun l hl => h l (List.mem_cons_of_mem s hl)]

theorem joinNl_ne_empty (s r : String) (t : List String) : joinNl (s :: r :: t) ≠ "" := by
  intro h
  have hm : '\n' ∈ (joinNl (s :: r :: t)).data := by
    show '\n' ∈ ((s ++ "\n") ++ joinNl (r :: t)).data
    rw [String.data_append, String.data_append]
    exact List.mem_append_left _ (List.mem_append_right _ (by decide))
  rw [h] at hm
  simp at hm

theorem body_lines_joinNl (s r : String) (t : List String)
    (h : ∀ l ∈ s :: r :: t, '\n' ∉ l.data) :
    body_lines (some (joinNl (s :: r :: t))) = (s :: r :: t).map preprocessLine := by
  have hbl : body_lines (some (joinNl (s :: r :: t))) =
      if joinNl (s :: r :: t) = "" then []
      else (splitChar '\n' (joinNl (s :: r :: t)).data).map fun x => preprocessLine ⟨x⟩ := rfl
  rw [hbl, if_neg (joinNl_ne_empty s r t), splitChar_joinNl _ (by simp) h,
    List.map_map]
  rfl

/-- Claim C3: body parsing is order-stable.  For a body consisting of a
changelog-category block (header line and category value line) and a
short-description or changelog-entry block (header line and nonblank
entry lines), separated by a blank line, swapping the relative order of
the two blocks yields the same extracted (category, entry) pair.  The
hypotheses say that the lines carry no embedded newlines and that, after
per-line preprocessing, the first header matches the category pattern,
the second matches the entry pattern and not the category pattern, and
the value lines are nonblank. -/
theorem parse_order_stable (ch cv eh : String) (es : List String)
    (hnch : '\n' ∉ ch.data) (hncv : '\n' ∉ cv.data) (hneh : '\n' ∉ eh.data)
    (hnes : ∀ l ∈ es, '\n' ∉ l.data)
    (h1 : matchCatHeader (preprocessLine ch) = true)
    (h2 : matchCatHeader (preprocessLine eh) = false)
    (h3 : matchEntryHeader (preprocessLine eh) = true)
    (h4 : preprocessLine cv ≠ "")
    (hes : es ≠ [])
    (h5 : ∀ l ∈ es, preprocessLine l ≠ "") :
    extracted_pair (some (joinNl (ch :: cv :: "" :: eh :: es))) =
      extracted_pair (some (joinNl (eh :: (es ++ ["", ch, cv])))) := by
  obtain ⟨e, es', rfl⟩ := List.exists_cons_of_ne_nil hes
  have hne : preprocessLine e ≠ "" := h5 e (List.mem_cons_self e es')
  have h5' : ∀ l ∈ List.map preprocessLine es', l ≠ "" := by
    intro l hl
    rcases List.mem_map.mp hl with ⟨x, hx, rfl⟩
    exact h5 x (List.mem_cons_of_mem e hx)
  have hm1 : ∀ l ∈ ch :: cv :: "" :: eh :: e :: es', '\n' ∉ l.data :=
    List.forall_mem_cons.mpr ⟨hnch, List.forall_mem_cons.mpr ⟨hncv,
      List.forall_mem_cons.mpr ⟨by simp, List.forall_mem_cons.mpr ⟨hneh, hnes⟩⟩⟩⟩
  have hm2 : ∀ l ∈ eh :: e :: (es' ++ ["", ch, cv]), '\n' ∉ l.data := by
    refine List.forall_mem_cons.mpr ⟨hneh,
      List.forall_mem_cons.mpr ⟨hnes e (List.mem_cons_self e es'), ?_⟩⟩
    intro l hl
    rcases List.mem_append.mp hl with hl' | hl'
    · exact hnes l (List.mem_cons_of_mem e hl')
    · rcases List.mem_cons.mp hl' with rfl | hl''
      · simp
      · rcases List.mem_cons.mp hl'' with rfl | hl3
        · exact hnch
        · rcases List.mem_cons.mp hl3 with rfl | hl4
          · exact hncv
          · simp at hl4
  simp only [extracted_pair, List.cons_append]
  rw [body_lines_joinNl ch cv _ hm1, body_lines_joinNl eh e _ hm2]
  simp only [parse_description_lines, List.map_cons, List.map_append,
    List.map_nil, show preprocessLine "" = "" from rfl]
  rw [scanStep_top_cat h1, scanStep_cat_take h4 true,
    scanStep_top_skip (by decide) (by decide), scanStep_top_ent h2 h3,
    scanStep_ent_collect hne true, scanStep_collect_end _ _ _ _ h5']
  rw [scanStep_top_ent h2 h3, scanStep_ent_collect hne true,
    scanStep_collect_blank _ _ _ _ _ h5', scanStep_top_cat h1,
    scanStep_cat_take h4 true, scanStep_nil_top]

/-- Witness for claim C3: a concrete category block and entry block
extract the same pair in either order. -/
theorem parse_order_stable_witness :
    extracted_pair (some (joinNl ["### Changelog category (leave one):",
      "- Bug Fix", "", "### Changelog entry", "Fixed a bug"])) =
      extracted_pair (some (joinNl ["### Changelog entry", "Fixed a bug", "",
        "### Changelog category (leave one):", "- Bug Fix"])) :=
  parse_order_stable "### Changelog category (leave one):" "- Bug Fix"
    "### Changelog entry" ["Fixed a bug"] (by decide) (by decide) (by decide)
    (by decide) (by decide) (by decide) (by decide) (by decide) (by decide)
    (by decide)

/-- Counterexample to claim C4 as stated: in a body with two category
header blocks the extracted category comes from the second block, so the
extracted pair differs from that of the body truncated after the first
block. -/
theorem parse_first_occurrence_counterexample :
    extracted_pair (some "Changelog category\nA\nChangelog category\nB") = ("B", "") ∧
    extracted_pair (some "Changelog category\nA") = ("A", "") ∧
    (("B", "") : String × String) ≠ (("A", "") : String × String) :=
  ⟨by decide, by decide, by decide⟩

/-- Claim C4 (amended): every header occurrence the scan processes
overwrites the previously captured value, so the extracted pair reflects
the last processed occurrence of each header type, not the first: a body
of two category blocks followed by two entry blocks (blank-line
separated, with nonblank non-header value lines) extracts the second
category and the second entry. -/
theorem parse_last_occurrence (h1 v1 h2 v2 f1 g1 f2 g2 : String)
    (hh1 : matchCatHeader h1 = true) (hh2 : matchCatHeader h2 = true)
    (hv1 : v1 ≠ "") (hv2 : v2 ≠ "")
    (hf1c : matchCatHeader f1 = false) (hf1e : matchEntryHeader f1 = true)
    (hf2c : matchCatHeader f2 = false) (hf2e : matchEntryHeader f2 = true)
    (hg1 : g1 ≠ "") (hg2 : g2 ≠ "") :
    parse_description_lines [h1, v1, "", h2, v2, "", f1, g1, "", f2, g2] =
      (stripMarker v2, g2) := by
  simp only [parse_description_lines]
  rw [scanStep_top_cat hh1, scanStep_cat_take hv1 true,
    scanStep_top_skip (by decide) (by decide), scanStep_top_cat hh2,
    scanStep_cat_take hv2 true, scanStep_top_skip (by decide) (by decide),
    scanStep_top_ent hf1c hf1e, scanStep_ent_collect hg1 true,
    scanStep_ent_blank_end, scanStep_top_ent hf2c hf2e,
    scanStep_ent_collect hg2 true, scanStep_nil_ent]
  rfl

/-- Witness for the amended claim C4: concrete repeated category and
entry blocks extract the values of the second occurrences. -/
theorem parse_last_occurrence_witness :
    parse_description_lines ["Changelog category", "A", "", "Changelog category",
      "B", "", "Changelog entry", "first text", "", "Changelog entry", "second text"] =
      (stripMarker "B", "second text") :=
  parse_last_occurrence "Changelog category" "A" "Changelog category" "B"
    "Changelog entry" "first text" "Changelog entry" "second text"
    (by decide) (by decide) (by decide) (by decide) (by decide) (by decide)
    (by decide) (by decide) (by decide) (by decide)

end Changelog
